import Mathlib

/-!
  Verification of the natural-language specification of gmalg
  (src/gmalg/ellipticcurve.py) against the code.

  The file shallowly embeds the module: affine elliptic-curve arithmetic
  over a supplied field-operations provider, and the BN-pairing helper
  functions of the BNBIDH class (line evaluation, twist embedding and its
  inverse, final exponentiation, constructor validation).

  Modelling decisions, stated once:

  * Field elements. The prime-field tower (gmalg/primefield.py) is not part
    of the sources under review; the specification treats it as a supplied
    capability with a fixed operation contract. It is therefore modelled
    as an abstract operation record (FieldOps) over an abstract carrier
    type, exactly the set of operations the curve code calls.

  * The point at infinity. The source represents it as the pair
    (float inf, float inf), a sentinel that is not a field element. A
    coordinate is therefore modelled as Coord F: either a field element or
    the sentinel. Applying a field operation to the sentinel is not
    determined by the sources under review nor by the field contract of the
    specification; such a computation is modelled as the explicit outcome
    Res.undef. A raised UnknownError is the outcome Res.raise.

  * Python structural equality on coordinate tuples is Coord equality; a
    float sentinel never equals a genuine field element, matching Python,
    where float inf compares unequal to every int and tuple.
-/

/-- FieldOps collects the operations the curve and pairing code requests
from the external prime-field library, one record per tower level in use,
following the capability table of the specification. -/
structure FieldOps (F : Type) where
  add : F → F → F
  sub : F → F → F
  neg : F → F
  mul : F → F → F
  smul : Nat → F → F
  pow : F → Nat → F
  inv : F → F
  isoppo : F → F → Bool
  frob : F → F
  one : F

/-- Coord F is one coordinate of a point as the Python code stores it:
either a genuine field element or the float-infinity sentinel used by
EllipticCurve.INF. -/
inductive Coord (F : Type) where
  | elem : F → Coord F
  | infty : Coord F
deriving DecidableEq

/-- Coord.toOpt extracts the field element of a coordinate, if there is
one; the sentinel carries none. -/
def Coord.toOpt {F : Type} : Coord F → Option F
  | Coord.elem v => some v
  | Coord.infty => none

/-- EcPoint mirrors the source alias: a pair of coordinates. -/
abbrev EcPoint (F : Type) : Type := Coord F × Coord F

/-- INF mirrors EllipticCurve.INF, the pair of two sentinels. -/
def INF {F : Type} : EcPoint F := (Coord.infty, Coord.infty)

/-- WF singles out the values of the EcPoint type that the data model of
the specification admits: the point at infinity, or an affine pair of two
genuine field elements. Mixed pairs holding one sentinel are not produced
by any operation and are outside the data model. -/
def WF {F : Type} (P : EcPoint F) : Prop :=
  P = INF ∨ ∃ x y, P = (Coord.elem x, Coord.elem y)

/-- Res is the outcome of one call into the curve code: a returned value,
a raised UnknownError, or behaviour undetermined by the sources under
review (a field operation applied to the float sentinel). -/
inductive Res (α : Type) where
  | ok : α → Res α
  | raise : Res α
  | undef : Res α
deriving DecidableEq

/-- EllipticCurve mirrors the Python class: curve coefficients a and b
together with the field-operations provider met at construction. -/
structure EllipticCurve (F : Type) where
  fp : FieldOps F
  a : F
  b : F

/-- get_y_sqr evaluates the curve right-hand side x^3 + a x + b with the
field operations, exactly as the source writes it. -/
def EllipticCurve.get_y_sqr {F : Type} (E : EllipticCurve F) (x : F) : F :=
  E.fp.add (E.fp.pow x 3) (E.fp.add (E.fp.mul E.a x) E.b)

/-- isvalid mirrors the source method: it unpacks the point and compares
mul y y with get_y_sqr x; there is no special branch for the point at
infinity, so on the sentinel pair the field operations receive the
sentinel and no boolean is determined. -/
def EllipticCurve.isvalid {F : Type} [DecidableEq F] (E : EllipticCurve F)
    (P : EcPoint F) : Res Bool :=
  match P with
  | (x, y) =>
    match x.toOpt, y.toOpt with
    | some xv, some yv => Res.ok (decide (E.fp.mul yv yv = E.get_y_sqr xv))
    | _, _ => Res.undef

/-- neg mirrors the source method: the x coordinate is passed through
unchanged and the field negation is applied to the y coordinate; there is
no special branch for the point at infinity. -/
def EllipticCurve.neg {F : Type} (E : EllipticCurve F) (P : EcPoint F) :
    Res (EcPoint F) :=
  match P with
  | (x, y) =>
    match y.toOpt with
    | some yv => Res.ok (x, Coord.elem (E.fp.neg yv))
    | none => Res.undef

/-- add mirrors the source group law: infinity operands are returned
early, equal x splits into the opposite-y, doubling and error branches,
and distinct x takes the chord slope; the closing formulas are
x3 = lam^2 - (x1 + x2) and y3 = lam (x1 - x3) - y1. -/
def EllipticCurve.add {F : Type} [DecidableEq F] (E : EllipticCurve F)
    (P1 P2 : EcPoint F) : Res (EcPoint F) :=
  if P1 = INF then Res.ok P2
  else if P2 = INF then Res.ok P1
  else
    match P1, P2 with
    | (x1, y1), (x2, y2) =>
      if x1 = x2 then
        match y1.toOpt, y2.toOpt with
        | some v1, some v2 =>
          if E.fp.isoppo v1 v2 then Res.ok INF
          else if v1 = v2 then
            match x1.toOpt with
            | some xv =>
              let lam := E.fp.mul (E.fp.add E.a (E.fp.smul 3 (E.fp.mul xv xv)))
                (E.fp.inv (E.fp.smul 2 v1))
              let x3 := E.fp.sub (E.fp.mul lam lam) (E.fp.add xv xv)
              Res.ok (Coord.elem x3, Coord.elem (E.fp.sub (E.fp.mul lam (E.fp.sub xv x3)) v1))
            | none => Res.undef
          else Res.raise
        | _, _ => Res.undef
      else
        match x1.toOpt, y1.toOpt, x2.toOpt, y2.toOpt with
        | some a1, some b1, some a2, some b2 =>
          let lam := E.fp.mul (E.fp.sub b2 b1) (E.fp.inv (E.fp.sub a2 a1))
          let x3 := E.fp.sub (E.fp.mul lam lam) (E.fp.add a1 a2)
          Res.ok (Coord.elem x3, Coord.elem (E.fp.sub (E.fp.mul lam (E.fp.sub a1 x3)) b1))
        | _, _, _, _ => Res.undef

/-- binStr models the Python binary formatting of a non-negative integer:
the most-significant-bit-first digit list, which for zero is the single
digit 0. -/
def binStr (k : Nat) : List Bool :=
  if k = 0 then [false] else (Nat.bits k).reverse

/-- mul mirrors the source double-and-add loop: the accumulator starts at
P for the leading digit and the remaining digits each double and, on a
one digit, add P; a raise or undetermined outcome inside the loop
propagates out. -/
def EllipticCurve.mul {F : Type} [DecidableEq F] (E : EllipticCurve F)
    (k : Nat) (P : EcPoint F) : Res (EcPoint F) :=
  ((binStr k).drop 1).foldl
    (fun acc bit =>
      match acc with
      | Res.ok Q =>
        match E.add Q Q with
        | Res.ok Q2 => if bit then E.add Q2 P else Res.ok Q2
        | r => r
      | r => r)
    (Res.ok P)

/-- Fp2Ele is the tuple representation of a degree-2 extension element:
an ordered pair of lower-level elements, per the data model of the
specification and the tuples the source indexes into. -/
abbrev Fp2Ele (F : Type) : Type := F × F

/-- Fp4Ele is a pair of Fp2 elements. -/
abbrev Fp4Ele (F : Type) : Type := Fp2Ele F × Fp2Ele F

/-- Fp12Ele is a triple of Fp4 elements, matching the three-component
tuples the source builds in the phi embedding. -/
abbrev Fp12Ele (F : Type) : Type := Fp4Ele F × Fp4Ele F × Fp4Ele F

/-- BNBIDHState holds the values the BNBIDH constructor derives and
stores once the twist parameter has been validated: the seed t, the BN
modulus p and order n, the curve coefficient b, the two base points and
the Miller-loop exponent 6 t + 2. Base-level field elements are Python
integers, hence Int. The field-tower objects the constructor also builds
come from the external prime-field library and carry no further data of
their own, so they are not repeated here. -/
structure BNBIDHState where
  t : Int
  p : Int
  n : Int
  b : Int
  G1 : EcPoint Int
  G2 : EcPoint (Int × Int)
  a : Int

/-- BNBIDH.init mirrors the constructor: any twist parameter other than
the pair (1, 0) raises NotImplementedError before any state is built;
otherwise the derived BN quantities are computed and stored. -/
def BNBIDH.init (t b : Int) (beta : Int × Int) (G1 : EcPoint Int)
    (G2 : EcPoint (Int × Int)) : Except String BNBIDHState :=
  if beta ≠ (1, 0) then Except.error "NotImplementedError"
  else Except.ok
    { t := t
      p := 36 * t ^ 4 + 36 * t ^ 3 + 24 * t ^ 2 + 6 * t + 1
      n := 36 * t ^ 4 + 36 * t ^ 3 + 18 * t ^ 2 + 6 * t + 1
      b := b
      G1 := G1
      G2 := G2
      a := 6 * t + 2 }

/-- GRes is the outcome of one call to the line-function evaluation. The
source can return a single field element, or — in the opposite-y branch,
whose return statement carries a trailing extra component — a Python
2-tuple of two field elements; it can also raise UnknownError, and on
sentinel coordinates the field operations determine no outcome. -/
inductive GRes (F : Type) where
  | elem : F → GRes F
  | pair : F → F → GRes F
  | raise : GRes F
  | undef : GRes F
deriving DecidableEq

/-- g_fn mirrors the source line-function evaluation g(U, V)(Q) over
Fp12 points: any infinity argument yields one; equal x splits into the
opposite-y branch (which the source returns as the 2-tuple of the
difference of x coordinates and one), the tangent branch and the raise
branch; distinct x takes the chord slope; both slope branches return the
single element lam (xQ - xV) - (yQ - yV). -/
def BNBIDH.g_fn {F : Type} [DecidableEq F] (fpk : FieldOps F)
    (U V Q : EcPoint F) : GRes F :=
  if U = INF ∨ V = INF ∨ Q = INF then GRes.elem fpk.one
  else
    match U, V, Q with
    | (xU, yU), (xV, yV), (xQ, yQ) =>
      if xU = xV then
        match yU.toOpt, yV.toOpt with
        | some u, some v =>
          if fpk.isoppo u v then
            match xQ.toOpt, xV.toOpt with
            | some q, some w => GRes.pair (fpk.sub q w) fpk.one
            | _, _ => GRes.undef
          else if u = v then
            match xV.toOpt, xQ.toOpt, yQ.toOpt with
            | some w, some q, some qy =>
              GRes.elem (fpk.sub
                (fpk.mul (fpk.mul (fpk.smul 3 (fpk.mul w w)) (fpk.inv (fpk.smul 2 v)))
                  (fpk.sub q w))
                (fpk.sub qy v))
            | _, _, _ => GRes.undef
          else GRes.raise
        | _, _ => GRes.undef
      else
        match xU.toOpt, yU.toOpt, xV.toOpt, yV.toOpt, xQ.toOpt, yQ.toOpt with
        | some a1, some b1, some a2, some b2, some q, some qy =>
          GRes.elem (fpk.sub
            (fpk.mul (fpk.mul (fpk.sub b1 b2) (fpk.inv (fpk.sub a1 a2)))
              (fpk.sub q a2))
            (fpk.sub qy b2))
        | _, _, _, _, _, _ => GRes.undef

/-- phi mirrors the source untwisting embedding for the supported twist
parameter: the Fp2 coordinates of a point on the twisted curve are placed
into fixed slots of the Fp12 tuple, the second component scaled by the
precomputed constant i2 held by the object as the inverse of minus two in
the base field. The base field multiplication and the literal zero of the
source tuples are passed in explicitly. -/
def BNBIDH.phi {F : Type} (mul : F → F → F) (zero i2 : F)
    (P : Fp2Ele F × Fp2Ele F) : Fp12Ele F × Fp12Ele F :=
  match P with
  | (x_, y_) =>
    ( (((zero, zero), (zero, zero)),
       ((mul x_.2 i2, x_.1), (zero, zero)),
       ((zero, zero), (zero, zero))),
      (((zero, zero), (zero, zero)),
       ((zero, zero), (zero, zero)),
       ((mul y_.2 i2, y_.1), (zero, zero))) )

/-- phi_inv mirrors the source inverse embedding: it projects the two
filled slots back out, scaling the first slot component by the
precomputed constant n2 held by the object as minus two in the base
field. -/
def BNBIDH.phi_inv {F : Type} (mul : F → F → F) (n2 : F)
    (P : Fp12Ele F × Fp12Ele F) : Fp2Ele F × Fp2Ele F :=
  match P with
  | (x_, y_) =>
    ((x_.2.1.1.2, mul x_.2.1.1.1 n2), (y_.2.2.1.2, mul y_.2.2.1.1 n2))

/-- finalexp mirrors the source final exponentiation: the easy part
folds the sixth Frobenius power against the inverse and then the second
Frobenius power against the result; the hard part forms the seed powers
and Frobenius variants, the seven combination terms and the closing
quotient. -/
def BNBIDH.finalexp {F : Type} (K : FieldOps F) (t : Nat) (f : F) : F :=
  let f1 := K.mul (K.frob (K.frob (K.frob (K.frob (K.frob (K.frob f)))))) (K.inv f)
  let f2 := K.mul (K.frob (K.frob f1)) f1
  let f_t := K.pow f2 t
  let f_t2 := K.pow f_t t
  let f_t3 := K.pow f_t2 t
  let f_p := K.frob f2
  let f_p2 := K.frob f_p
  let f_p3 := K.frob f_p2
  let f_t_p := K.frob f_t
  let f_t2_p := K.frob f_t2
  let f_t3_p := K.frob f_t3
  let f_t2_p2 := K.frob f_t2_p
  let y6 := K.pow (K.mul f_t3 f_t3_p) 36
  let y5 := K.pow f_t2 30
  let y4 := K.pow (K.mul f_t2_p f_t) 18
  let y3 := K.pow f_t_p 12
  let y2 := K.pow f_t2_p2 6
  let y1 := K.mul f2 f2
  let y0 := K.mul f_p (K.mul f_p2 f_p3)
  let f_num := K.mul y2 y0
  let f_den := K.mul y6 (K.mul y5 (K.mul y4 (K.mul y3 y1)))
  K.mul f_num (K.inv f_den)

/-- finalexp_described restates the final exponentiation in the shape of
the amended specification sentence: the easy part is Frob applied six
times divided by the input, then Frob applied twice times the result;
the seven terms carry the powers 36, 30, 18, 12, 6, 1, 1 attached to
y6, y5, y4, y3, y2, y1, y0 in that descending order, and the combination
is (y2 y0) / (y6 y5 y4 y3 y1). -/
def BNBIDH.finalexp_described {F : Type} (K : FieldOps F) (t : Nat) (f : F) : F :=
  let g := K.mul (K.frob^[2] (K.mul (K.frob^[6] f) (K.inv f)))
    (K.mul (K.frob^[6] f) (K.inv f))
  let gt := K.pow g t
  let gt2 := K.pow gt t
  let gt3 := K.pow gt2 t
  let y6 := K.pow (K.mul gt3 (K.frob gt3)) 36
  let y5 := K.pow gt2 30
  let y4 := K.pow (K.mul (K.frob gt2) gt) 18
  let y3 := K.pow (K.frob gt) 12
  let y2 := K.pow (K.frob^[2] gt2) 6
  let y1 := K.mul g g
  let y0 := K.mul (K.frob g) (K.mul (K.frob^[2] g) (K.frob^[3] g))
  K.mul (K.mul y2 y0) (K.inv (K.mul y6 (K.mul y5 (K.mul y4 (K.mul y3 y1)))))

/-- finalexp_y0 recomputes, as a standalone value, the intermediate term
named y0 inside the source final exponentiation: the easy part applied to
the input, followed by the product of its first three Frobenius images.
It does not depend on the seed t. -/
def BNBIDH.finalexp_y0 {F : Type} (K : FieldOps F) (f : F) : F :=
  let f1 := K.mul (K.frob (K.frob (K.frob (K.frob (K.frob (K.frob f)))))) (K.inv f)
  let f2 := K.mul (K.frob (K.frob f1)) f1
  let f_p := K.frob f2
  let f_p2 := K.frob f_p
  let f_p3 := K.frob f_p2
  K.mul f_p (K.mul f_p2 f_p3)

/-- ops5 instantiates the field-operations contract at the concrete
prime field with five elements, for evaluating the embedded code on
explicit inputs; inv is the cube map, which on this field is the
multiplicative inverse by the little Fermat identity. -/
def ops5 : FieldOps (ZMod 5) where
  add := fun a b => a + b
  sub := fun a b => a - b
  neg := fun a => -a
  mul := fun a b => a * b
  smul := fun k a => (k : ZMod 5) * a
  pow := fun a k => a ^ k
  inv := fun a => a ^ 3
  isoppo := fun a b => decide (a = -b)
  frob := fun a => a ^ 5
  one := 1

/-- E5 is a concrete curve over the five-element field used to evaluate
the embedded curve operations on explicit points. -/
def E5 : EllipticCurve (ZMod 5) where
  fp := ops5
  a := 1
  b := 1

/-- Kfree instantiates the multiplicative structure that the final
exponentiation actually uses — multiplication, inversion, powers and a
Frobenius endomorphism — on the group of formal exponent vectors indexed
by the twelve Frobenius slots: mul adds exponent vectors, inv negates,
pow scales by the exponent and frob shifts the slots cyclically. The
unused additive entries of the record are filled pointwise. -/
def Kfree : FieldOps (Fin 12 → Int) where
  add := fun v w i => v i + w i
  sub := fun v w i => v i - w i
  neg := fun v i => -v i
  mul := fun v w i => v i + w i
  smul := fun k v i => (k : Int) * v i
  pow := fun v k i => (k : Int) * v i
  inv := fun v i => -v i
  isoppo := fun _ _ => false
  frob := fun v i => v (i - 1)
  one := fun _ => 0

/-- e0v is the formal exponent vector of a generator: one in slot zero
and zero elsewhere. -/
def e0v : Fin 12 → Int := fun i => if i = 0 then 1 else 0

/-- C8: adding the point at infinity on either side returns the other
operand unchanged, for every point of the EcPoint type. -/
theorem EllipticCurve.add_INF_identity {F : Type} [DecidableEq F]
    (E : EllipticCurve F) (P : EcPoint F) :
    E.add INF P = Res.ok P ∧ E.add P INF = Res.ok P := by
  constructor
  · simp [EllipticCurve.add]
  · by_cases h : P = INF
    · subst h; simp [EllipticCurve.add]
    · simp [EllipticCurve.add, h]

/-- C10: scalar multiplication with k equal to zero returns the input
point itself, because the binary digit string of zero is the single
digit zero, which the loop skips, so the loop body never runs; the
result is not the point at infinity. -/
theorem EllipticCurve.mul_zero_returns_point {F : Type} [DecidableEq F]
    (E : EllipticCurve F) (P : EcPoint F) :
    E.mul 0 P = Res.ok P := rfl

/-- C5 counterexample: on a concrete curve, isvalid at the point at
infinity does not return true — the method has no infinity branch, so
the sentinel coordinates reach the field operations and no boolean is
determined — refuting the claim that isvalid is true at infinity. -/
theorem isvalid_INF_not_true : E5.isvalid INF ≠ Res.ok true := by decide

/-- C5 amended: isvalid returns true exactly when the operand is an
affine pair of field elements satisfying the curve equation; at the
point at infinity the sentinel coordinates reach the field operations,
so no boolean — in particular not true — is returned. -/
theorem EllipticCurve.isvalid_characterization {F : Type} [DecidableEq F]
    (E : EllipticCurve F) (x y : F) :
    (E.isvalid (Coord.elem x, Coord.elem y) = Res.ok true ↔
      E.fp.mul y y = E.get_y_sqr x)
    ∧ E.isvalid (INF : EcPoint F) = Res.undef := by
  constructor
  · simp [EllipticCurve.isvalid, Coord.toOpt]
  · rfl

/-- C6 counterexample: on a concrete curve, negating the point at
infinity does not return the point at infinity — the method has no
infinity branch, so the field negation receives the sentinel — refuting
the claim that negate maps infinity to itself. -/
theorem neg_INF_not_INF : E5.neg INF ≠ Res.ok INF := by decide

/-- C6 amended: negate maps every affine pair of field elements (x, y)
to (x, -y); the point at infinity is not special-cased, its sentinel y
coordinate reaches the field negation and no point is returned. -/
theorem EllipticCurve.neg_characterization {F : Type}
    (E : EllipticCurve F) (x y : F) :
    E.neg (Coord.elem x, Coord.elem y)
      = Res.ok (Coord.elem x, Coord.elem (E.fp.neg y))
    ∧ E.neg (INF : EcPoint F) = Res.undef := ⟨rfl, rfl⟩

/-- C9: the BNBIDH constructor succeeds exactly when the twist parameter
is the pair (1, 0); for every other value it raises at construction time
and no object is produced. -/
theorem BNBIDH.init_beta_check (t b : Int) (beta : Int × Int)
    (G1 : EcPoint Int) (G2 : EcPoint (Int × Int)) :
    ((∃ s, BNBIDH.init t b beta G1 G2 = Except.ok s) ↔ beta = (1, 0))
    ∧ (BNBIDH.init t b beta G1 G2 = Except.error "NotImplementedError"
        ↔ ¬beta = (1, 0)) := by
  by_cases h : beta = (1, 0)
  · subst h
    refine ⟨⟨fun _ => rfl, fun _ => ⟨_, rfl⟩⟩, ?_⟩
    simp [BNBIDH.init]
  · refine ⟨⟨?_, fun hb => absurd hb h⟩, ?_⟩
    · rintro ⟨s, hs⟩
      simp [BNBIDH.init, h] at hs
    · simp [BNBIDH.init, h]

/-- C3: phi_inv is a left inverse of phi on affine points with Fp2
coordinates, given that multiplying by the precomputed inverse of minus
two and then by minus two is the identity, as the field axioms supply. -/
theorem BNBIDH.phi_inv_phi {F : Type} (mul : F → F → F) (zero i2 n2 : F)
    (h : ∀ v, mul (mul v i2) n2 = v) (x y : Fp2Ele F) :
    BNBIDH.phi_inv mul n2 (BNBIDH.phi mul zero i2 (x, y)) = (x, y) := by
  obtain ⟨x0, x1⟩ := x
  obtain ⟨y0, y1⟩ := y
  simp [BNBIDH.phi, BNBIDH.phi_inv, h]

/-- C3 witness: in the five-element prime field, two is the inverse of
minus two; with i2 two and n2 minus two, the round trip fixes a concrete
point. -/
theorem BNBIDH.phi_inv_phi_witness :
    (-2 : ZMod 5) * 2 = 1 ∧
    BNBIDH.phi_inv (fun a b : ZMod 5 => a * b) (-2)
      (BNBIDH.phi (fun a b : ZMod 5 => a * b) 0 2 ((1, 2), (3, 4)))
      = ((1, 2), (3, 4)) :=
  ⟨by decide, BNBIDH.phi_inv_phi (fun a b : ZMod 5 => a * b) 0 2 (-2)
    (by decide) (1, 2) (3, 4)⟩

/-- C2: evaluating the line function at a concrete vertical-line input —
equal x coordinates, opposite y coordinates — returns the Python 2-tuple
of the coordinate difference and one, not a single field element: over
the five-element field with U = (3, 4), V = (3, 1) and S = (2, 0), the
result is the pair (4, 1) and no single field element. -/
theorem BNBIDH.g_fn_vertical_returns_pair :
    BNBIDH.g_fn ops5 (Coord.elem 3, Coord.elem 4) (Coord.elem 3, Coord.elem 1)
        (Coord.elem 2, Coord.elem 0)
      = GRes.pair 4 1
    ∧ ¬∃ w, BNBIDH.g_fn ops5 (Coord.elem 3, Coord.elem 4)
        (Coord.elem 3, Coord.elem 1) (Coord.elem 2, Coord.elem 0)
      = GRes.elem w := by
  constructor
  · decide
  · decide

/-- Helper: the value of add on two affine pairs of field elements,
with the Coord matching reduced away. -/
theorem EllipticCurve.add_elem {F : Type} [DecidableEq F]
    (E : EllipticCurve F) (a1 b1 a2 b2 : F) :
    E.add (Coord.elem a1, Coord.elem b1) (Coord.elem a2, Coord.elem b2)
      = if a1 = a2 then
          if E.fp.isoppo b1 b2 then Res.ok INF
          else if b1 = b2 then
            Res.ok (Coord.elem (E.fp.sub
                (E.fp.mul (E.fp.mul (E.fp.add E.a (E.fp.smul 3 (E.fp.mul a1 a1)))
                    (E.fp.inv (E.fp.smul 2 b1)))
                  (E.fp.mul (E.fp.add E.a (E.fp.smul 3 (E.fp.mul a1 a1)))
                    (E.fp.inv (E.fp.smul 2 b1))))
                (E.fp.add a1 a1)),
              Coord.elem (E.fp.sub
                (E.fp.mul (E.fp.mul (E.fp.add E.a (E.fp.smul 3 (E.fp.mul a1 a1)))
                    (E.fp.inv (E.fp.smul 2 b1)))
                  (E.fp.sub a1 (E.fp.sub
                    (E.fp.mul (E.fp.mul (E.fp.add E.a (E.fp.smul 3 (E.fp.mul a1 a1)))
                        (E.fp.inv (E.fp.smul 2 b1)))
                      (E.fp.mul (E.fp.add E.a (E.fp.smul 3 (E.fp.mul a1 a1)))
                        (E.fp.inv (E.fp.smul 2 b1))))
                    (E.fp.add a1 a1))))
                b1))
          else Res.raise
        else
          Res.ok (Coord.elem (E.fp.sub
              (E.fp.mul (E.fp.mul (E.fp.sub b2 b1) (E.fp.inv (E.fp.sub a2 a1)))
                (E.fp.mul (E.fp.sub b2 b1) (E.fp.inv (E.fp.sub a2 a1))))
              (E.fp.add a1 a2)),
            Coord.elem (E.fp.sub
              (E.fp.mul (E.fp.mul (E.fp.sub b2 b1) (E.fp.inv (E.fp.sub a2 a1)))
                (E.fp.sub a1 (E.fp.sub
                  (E.fp.mul (E.fp.mul (E.fp.sub b2 b1) (E.fp.inv (E.fp.sub a2 a1)))
                    (E.fp.mul (E.fp.sub b2 b1) (E.fp.inv (E.fp.sub a2 a1))))
                  (E.fp.add a1 a2))))
              b1)) := by
  by_cases hx : a1 = a2
  · subst hx
    simp only [EllipticCurve.add, Coord.toOpt, if_pos rfl]
    rw [if_neg (show ¬((Coord.elem a1, Coord.elem b1) : EcPoint F) = INF by
        simp [INF]),
      if_neg (show ¬((Coord.elem a1, Coord.elem b2) : EcPoint F) = INF by
        simp [INF])]
  · have hcx : (Coord.elem a1 : Coord F) ≠ Coord.elem a2 := by simpa using hx
    simp [EllipticCurve.add, Coord.toOpt, INF, hcx, hx]

/-- C7: over the points of the data model, add raises exactly when both
operands are non-infinity points sharing an x coordinate while the y
coordinates are neither equal nor additive inverses of each other, the
isoppo operation matching its contract; and in every other case add
returns a point without raising, the error propagating as the call
outcome rather than being swallowed. -/
theorem EllipticCurve.add_raise_iff {F : Type} [DecidableEq F]
    (E : EllipticCurve F)
    (hoppo : ∀ a b, E.fp.isoppo a b = decide (a = E.fp.neg b))
    (P1 P2 : EcPoint F) (h1 : WF P1) (h2 : WF P2) :
    (E.add P1 P2 = Res.raise ↔
      ∃ x y1 y2, P1 = (Coord.elem x, Coord.elem y1)
        ∧ P2 = (Coord.elem x, Coord.elem y2)
        ∧ y1 ≠ y2 ∧ y1 ≠ E.fp.neg y2)
    ∧ (E.add P1 P2 ≠ Res.raise → ∃ Q, E.add P1 P2 = Res.ok Q) := by
  rcases h1 with rfl | ⟨a1, b1, rfl⟩
  · have hval : E.add INF P2 = Res.ok P2 := by simp [EllipticCurve.add]
    refine ⟨⟨fun h => ?_, fun h => ?_⟩, fun _ => ⟨P2, hval⟩⟩
    · rw [hval] at h; exact absurd h (by simp)
    · obtain ⟨x, y1, y2, hP1, -⟩ := h
      exact absurd hP1 (by simp [INF])
  · rcases h2 with rfl | ⟨a2, b2, rfl⟩
    · have hval : E.add (Coord.elem a1, Coord.elem b1) INF
          = Res.ok (Coord.elem a1, Coord.elem b1) := by
        simp [EllipticCurve.add, INF]
      refine ⟨⟨fun h => ?_, fun h => ?_⟩, fun _ => ⟨_, hval⟩⟩
      · rw [hval] at h; exact absurd h (by simp)
      · obtain ⟨x, y1, y2, -, hP2, -⟩ := h
        exact absurd hP2 (by simp [INF])
    · by_cases hx : a1 = a2
      · subst hx
        by_cases hopp : b1 = E.fp.neg b2
        · have hval : E.add (Coord.elem a1, Coord.elem b1)
              (Coord.elem a1, Coord.elem b2) = Res.ok INF := by
            rw [EllipticCurve.add_elem, if_pos rfl, if_pos (by simp [hoppo, hopp])]
          refine ⟨⟨fun h => ?_, fun h => ?_⟩, fun _ => ⟨_, hval⟩⟩
          · rw [hval] at h; exact absurd h (by simp)
          · obtain ⟨x, y1, y2, hP1, hP2, -, hno⟩ := h
            simp only [Prod.mk.injEq, Coord.elem.injEq] at hP1 hP2
            obtain ⟨rfl, rfl⟩ := hP1
            obtain ⟨-, rfl⟩ := hP2
            exact absurd hopp hno
        · have hnopp : E.fp.isoppo b1 b2 = false := by
            simp [hoppo, hopp]
          by_cases heq : b1 = b2
          · subst heq
            have hval := EllipticCurve.add_elem E a1 b1 a1 b1
            rw [if_pos rfl, hnopp, if_neg (by simp), if_pos rfl] at hval
            refine ⟨⟨fun h => ?_, fun h => ?_⟩, fun _ => ⟨_, hval⟩⟩
            · rw [hval] at h; exact absurd h (by simp)
            · obtain ⟨x, y1, y2, hP1, hP2, hne, -⟩ := h
              simp only [Prod.mk.injEq, Coord.elem.injEq] at hP1 hP2
              obtain ⟨rfl, rfl⟩ := hP1
              obtain ⟨-, rfl⟩ := hP2
              exact absurd rfl hne
          · have hval : E.add (Coord.elem a1, Coord.elem b1)
                (Coord.elem a1, Coord.elem b2) = Res.raise := by
              rw [EllipticCurve.add_elem, if_pos rfl, hnopp, if_neg (by simp),
                if_neg heq]
            refine ⟨⟨fun _ => ⟨a1, b1, b2, rfl, rfl, heq, hopp⟩, fun _ => hval⟩,
              fun h => absurd hval h⟩
      · have hval := EllipticCurve.add_elem E a1 b1 a2 b2
        rw [if_neg hx] at hval
        refine ⟨⟨fun h => ?_, fun h => ?_⟩, fun _ => ⟨_, hval⟩⟩
        · rw [hval] at h; exact absurd h (by simp)
        · obtain ⟨x, y1, y2, hP1, hP2, -, -⟩ := h
          simp only [Prod.mk.injEq, Coord.elem.injEq] at hP1 hP2
          obtain ⟨rfl, -⟩ := hP1
          obtain ⟨rfl, -⟩ := hP2
          exact absurd rfl hx
/-- C7 witness: on the concrete five-element curve, adding the points
(1, 2) and (1, 1) — equal x, with 2 and 1 neither equal nor opposite —
raises the error. -/
theorem EllipticCurve.add_raise_witness :
    E5.add (Coord.elem 1, Coord.elem 2) (Coord.elem 1, Coord.elem 1)
      = Res.raise :=
  (EllipticCurve.add_raise_iff E5 (fun _ _ => rfl)
      (Coord.elem 1, Coord.elem 2) (Coord.elem 1, Coord.elem 1)
      (Or.inr ⟨1, 2, rfl⟩) (Or.inr ⟨1, 1, rfl⟩)).1.mpr
    ⟨1, 2, 1, rfl, rfl, by decide, by decide⟩

/-- C4 counterexample: in the exponent-vector instance of the
multiplicative structure, with generator input, the term the source
names y0 is not the 36th power of any element at all — its slot-one
exponent is minus one, while every 36th power has every exponent
divisible by 36 — so it is in particular not the fixed power 36 of a
product of the seed-power and Frobenius terms, as the claim, read with
its stated order y0 up to y6 against the power list 36, 30, 18, 12, 6,
1, 1, asserts. -/
theorem BNBIDH.finalexp_y0_not_a_36th_power :
    ¬∃ z : Fin 12 → Int, BNBIDH.finalexp_y0 Kfree e0v = Kfree.pow z 36 := by
  rintro ⟨z, hz⟩
  have h1 : BNBIDH.finalexp_y0 Kfree e0v 1 = Kfree.pow z 36 1 := congrFun hz 1
  have h2 : BNBIDH.finalexp_y0 Kfree e0v 1 = -1 := by decide
  have h3 : Kfree.pow z 36 1 = 36 * z 1 := rfl
  rw [h2, h3] at h1
  omega

/-- C4 amended: the final exponentiation applies the easy part — the
sixth Frobenius power divided by the input, then the second Frobenius
power times the result — and then the hard part computes the seven terms
y6, y5, y4, y3, y2, y1, y0, carrying the fixed powers 36, 30, 18, 12, 6,
1, 1 in that descending order of index — y1 being the square of the
easy-part output and y0 the product of its first three Frobenius images
— combined as (y2 y0) / (y6 y5 y4 y3 y1). -/
theorem BNBIDH.finalexp_matches_description {F : Type} (K : FieldOps F)
    (t : Nat) (f : F) :
    BNBIDH.finalexp K t f = BNBIDH.finalexp_described K t f := by
  simp only [BNBIDH.finalexp, BNBIDH.finalexp_described,
    Function.iterate_succ, Function.iterate_zero, Function.comp_apply,
    Function.comp_def, id_eq]
